import Mathlib

/-!
Verification of the mcf password-encoding library (Go) against its design
specification.  The development shallowly embeds the relevant packages:

* package `password` (src/unnamed/part_000, second half): the Modular Crypt
  Format codec (`Passwd`, `Parse`, `Bytes`, the hex/base64 auto-detecting
  `decode`);
* package `pbkdf2` (src/unnamed/part_000, first half): the PBKDF2 parameter
  set (`Config`, `Params`, `SetParams`, `validate`, `AtLeast`);
* package `scrypt` (src/scrypt/scrypt.go): the scrypt parameter set;
* package `bridge` (src/bridge/bridge.go): the generic adapter
  (`Create`, `Verify`, `IsCurrent`) over an `Implementer`;
* package `mcf` (registry file appended to src/Makefile): the registry
  (`Register`, `SetDefault`, `Generate`, `findInstance`, `Verify`,
  `IsCurrent`, `Salt`).

Byte strings are `List Nat` with each element an octet value.  The external
key-derivation primitives (PBKDF2/scrypt math) and the random salt source are
out of scope per the spec; they enter as explicit function parameters, exactly
at the seams the source provides (`bridge.Implementer.Key`, `mcf.SaltMiner`).
-/

/-- A byte string: Go `[]byte`, each element an octet. -/
abbrev ByteStr := List Nat

/-- The MCF field separator byte, `'$'` = 0x24 (password package, `separator`). -/
def sepByte : Nat := 36

/-- Go `bytes.Split(s, []byte{separator})`: split on every occurrence of the
separator byte; consecutive separators produce empty fields, and the empty
input yields one empty field. -/
def splitSep : ByteStr → List ByteStr
  | [] => [[]]
  | c :: rest =>
    if c = 36 then [] :: splitSep rest
    else
      match splitSep rest with
      | [] => [[c]]
      | h :: t => (c :: h) :: t

/-- Value of a hex digit byte, as accepted by Go `encoding/hex` (`0-9`,
`a-f`, `A-F`), `none` on any other byte. -/
def hexDigitVal (c : Nat) : Option Nat :=
  if 48 ≤ c ∧ c ≤ 57 then some (c - 48)
  else if 97 ≤ c ∧ c ≤ 102 then some (c - 87)
  else if 65 ≤ c ∧ c ≤ 70 then some (c - 55)
  else none

/-- Errors surfaced by the embedded operations.  Each constructor corresponds
to one error value produced by the Go source (`ErrorInputPassword` cases in
`Passwd.Parse`, decode failures from `encoding/hex`/`encoding/base64`,
`fmt.Sscanf` scan errors, `ErrInvalidHash`, scrypt `ErrInvalidParameter`,
the short-salt-read error in `mcf.Salt`, and the registry errors of the
`mcf` package).  `missingImpl` stands for the "missing implementation"
invariant violation in `mcf.Generate` (a `panic` in the source). -/
inductive MErr where
  | emptyPassword
  | noLeadSep
  | tooFewFields
  | tooManyFields
  | nameMismatch
  | decodeFail
  | paramScan
  | invalidHash (h : ByteStr)
  | invalidParam (name : ByteStr) (value : Int)
  | shortSalt (want got : Int)
  | noEncoder
  | noEncoders
  | invalidEncoding
  | unregisteredEncoding
  | emptyId
  | missingImpl
deriving DecidableEq

/-- Decidable equality for `Except` results, so that concrete runs of the
embedded operations can be settled by `decide`. -/
instance exceptDecEq {ε α : Type} [DecidableEq ε] [DecidableEq α] :
    DecidableEq (Except ε α) := fun x y =>
  match x, y with
  | .ok a, .ok b =>
    if h : a = b then isTrue (by rw [h]) else isFalse (fun hc => by cases hc; exact h rfl)
  | .error a, .error b =>
    if h : a = b then isTrue (by rw [h]) else isFalse (fun hc => by cases hc; exact h rfl)
  | .ok _, .error _ => isFalse (fun hc => by cases hc)
  | .error _, .ok _ => isFalse (fun hc => by cases hc)

/-- Go `encoding/hex.Decode`: bytes are decoded pairwise; an odd-length input
or a non-hex byte is an error (the partially filled buffer the Go function
also returns is discarded by every caller in this code base). -/
def hexDecode : ByteStr → Except MErr ByteStr
  | [] => .ok []
  | [_] => .error .decodeFail
  | a :: b :: rest =>
    match hexDigitVal a, hexDigitVal b with
    | some x, some y =>
      match hexDecode rest with
      | .ok t => .ok ((16 * x + y) :: t)
      | .error e => .error e
    | _, _ => .error .decodeFail

/-- Standard base64 alphabet: value `n < 64` to its character byte. -/
def b64Char (n : Nat) : Nat :=
  if n < 26 then 65 + n
  else if n < 52 then 97 + (n - 26)
  else if n < 62 then 48 + (n - 52)
  else if n = 62 then 43
  else 47

/-- Value of a standard base64 data character, `none` for anything else
(including the padding byte `'='`). -/
def b64Val (c : Nat) : Option Nat :=
  if 65 ≤ c ∧ c ≤ 90 then some (c - 65)
  else if 97 ≤ c ∧ c ≤ 122 then some (c - 71)
  else if 48 ≤ c ∧ c ≤ 57 then some (c + 4)
  else if c = 43 then some 62
  else if c = 47 then some 63
  else none

/-- Go `base64.StdEncoding.Encode` (password package `EncodeBase64`):
three input bytes become four alphabet characters; a final group of one or
two bytes is padded with `'='` (byte 61). -/
def EncodeBase64 : ByteStr → ByteStr
  | [] => []
  | [a] => [b64Char (a / 4), b64Char (a % 4 * 16), 61, 61]
  | [a, b] => [b64Char (a / 4), b64Char (a % 4 * 16 + b / 16), b64Char (b % 16 * 4), 61]
  | a :: b :: c :: rest =>
    b64Char (a / 4) :: b64Char (a % 4 * 16 + b / 16) ::
      b64Char (b % 16 * 4 + c / 64) :: b64Char (c % 64) :: EncodeBase64 rest

/-- Go `base64.StdEncoding.Decode`: input is consumed in four-character
quantums; only the final quantum may carry one or two `'='` padding bytes;
any other shape or any non-alphabet byte is an error. -/
def b64Decode : ByteStr → Except MErr ByteStr
  | [] => .ok []
  | [a, b, 61, 61] =>
    match b64Val a, b64Val b with
    | some x, some y => .ok [x * 4 + y / 16]
    | _, _ => .error .decodeFail
  | [a, b, c, 61] =>
    match b64Val a, b64Val b, b64Val c with
    | some x, some y, some z => .ok [x * 4 + y / 16, y % 16 * 16 + z / 4]
    | _, _, _ => .error .decodeFail
  | a :: b :: c :: d :: rest =>
    match b64Val a, b64Val b, b64Val c, b64Val d with
    | some x, some y, some z, some w =>
      match b64Decode rest with
      | .ok t => .ok ((x * 4 + y / 16) :: (y % 16 * 16 + z / 4) :: (z % 4 * 64 + w) :: t)
      | .error e => .error e
    | _, _, _, _ => .error .decodeFail
  | _ => .error .decodeFail

/-- The byte set of "GHIJKLMNOPQRSTUVWXYZghijklmnopqrstuvwxyz" plus plus-sign,
slash, minus and underscore, used by the password package `decode` to sniff
base64 input: letters `G`..`Z` (71-90), `g`..`z` (103-122), and bytes
43, 47, 45, 95. -/
def b64NotHex : ByteStr := List.range' 71 20 ++ List.range' 103 20 ++ [43, 47, 45, 95]

/-- The auto-detection condition of the password package `decode`: Go
`bytes.IndexAny(b64NotHex, string(encoded)) < 0`, i.e. no byte of the input
occurs in `b64NotHex`. -/
def hexSniff (encoded : ByteStr) : Bool :=
  encoded.all (fun c => !(b64NotHex.contains c))

/-- The password package `decode`: if the input contains no byte from
`b64NotHex` it is treated as hex, otherwise as standard base64. -/
def decode (encoded : ByteStr) : Except MErr ByteStr :=
  if hexSniff encoded then hexDecode encoded else b64Decode encoded

/-- A password split into components (password package `Passwd`), with the
default `Encoder`/`Decoder` pair (`EncodeBase64` / `decode`) fixed, as
installed by `password.New`. -/
structure Passwd where
  Name : ByteStr
  Params : ByteStr
  Salt : ByteStr
  Key : ByteStr
deriving DecidableEq

/-- `Passwd.Bytes`: the Modular Crypt Format serialization — a separator
before each of name, params, base64-encoded salt and base64-encoded key. -/
def Passwd.Bytes (p : Passwd) : ByteStr :=
  36 :: (p.Name ++ (36 :: (p.Params ++ (36 :: (EncodeBase64 p.Salt ++ (36 :: EncodeBase64 p.Key))))))

/-- `Passwd.Parse` for a codec constructed by `password.New(name)`: validates
the leading separator, the field count (exactly 4 after the leading empty
segment), the name field (constant-time equality in the source), then decodes
the salt and key fields with the auto-detecting `decode`. -/
def Passwd.Parse (name encoded : ByteStr) : Except MErr Passwd :=
  match encoded with
  | [] => .error .emptyPassword
  | b :: rest =>
    if b = 36 then
      match splitSep rest with
      | [p0, p1, p2, p3] =>
        if p0 = name then
          match decode p2 with
          | .error e => .error e
          | .ok s =>
            match decode p3 with
            | .error e => .error e
            | .ok k => .ok ⟨name, p1, s, k⟩
        else .error .nameMismatch
      | parts => if parts.length < 4 then .error .tooFewFields else .error .tooManyFields
    else .error .noLeadSep

/-! ## Integer serialization: the fmt verb interplay used by `Params`/`SetParams` -/

/-- Decimal digits of `n` (most significant first) as ASCII bytes, computed
with explicit fuel so that the kernel can evaluate it; returns `[]` for 0. -/
def digitsAux : Nat → Nat → ByteStr
  | 0, _ => []
  | fuel + 1, n => if n = 0 then [] else digitsAux fuel (n / 10) ++ [48 + n % 10]

/-- ASCII decimal rendering of a natural number, Go `fmt` style. -/
def natBytes (n : Nat) : ByteStr := if n = 0 then [48] else digitsAux (n + 1) n

/-- ASCII decimal rendering of a Go `int` via the `%d` verb (minus sign for
negative values). -/
def intBytes (i : Int) : ByteStr := if i < 0 then 45 :: natBytes i.natAbs else natBytes i.toNat

/-- Greedily take leading ASCII digits, returning them and the rest. -/
def takeDigits : ByteStr → ByteStr × ByteStr
  | [] => ([], [])
  | c :: rest =>
    if 48 ≤ c ∧ c ≤ 57 then
      match takeDigits rest with
      | (d, r) => (c :: d, r)
    else ([], c :: rest)

/-- Numeric value of a digit string (most significant first). -/
def digitsToNat (ds : ByteStr) : Nat := ds.foldl (fun a c => a * 10 + (c - 48)) 0

/-- `fmt.Sscanf` `%d`: an optional minus sign followed by at least one
digit; anything else is a scan error. -/
def parseIntB (s : ByteStr) : Except MErr (Int × ByteStr) :=
  match s with
  | [] => .error .paramScan
  | c :: rest =>
    if c = 45 then
      match takeDigits rest with
      | ([], _) => .error .paramScan
      | (ds, r) => .ok (-(digitsToNat ds : Int), r)
    else
      match takeDigits (c :: rest) with
      | ([], _) => .error .paramScan
      | (ds, r) => .ok ((digitsToNat ds : Int), r)

/-- `fmt.Sscanf` literal format text: the input must continue with exactly
these bytes. -/
def parseLit (lit s : ByteStr) : Except MErr ByteStr :=
  if lit.isPrefixOf s then .ok (s.drop lit.length) else .error .paramScan

/-- `fmt.Sscanf` `%s`: the maximal run of non-space bytes. -/
def takeNonSpace : ByteStr → ByteStr × ByteStr
  | [] => ([], [])
  | c :: rest =>
    if c = 32 then ([], c :: rest)
    else
      match takeNonSpace rest with
      | (d, r) => (c :: d, r)

/-! ## Package pbkdf2: the PBKDF2 parameter set -/

namespace Pbkdf2

/-- The pbkdf2 `Config`: the HMAC hash name (a Go string, kept as bytes),
iteration count, key length and salt length (Go `int`s). -/
structure Config where
  Hash : ByteStr
  Iterations : Int
  KeyLen : Int
  SaltLen : Int
deriving DecidableEq

/-- Bytes of "SHA1". -/
def hashSHA1 : ByteStr := [83, 72, 65, 49]

/-- Bytes of "SHA224". -/
def hashSHA224 : ByteStr := [83, 72, 65, 50, 50, 52]

/-- Bytes of "SHA256". -/
def hashSHA256 : ByteStr := [83, 72, 65, 50, 53, 54]

/-- Bytes of "SHA384". -/
def hashSHA384 : ByteStr := [83, 72, 65, 51, 56, 52]

/-- Bytes of "SHA512". -/
def hashSHA512 : ByteStr := [83, 72, 65, 53, 49, 50]

/-- Membership in the pbkdf2 `hashes` table. -/
def validHash (h : ByteStr) : Bool :=
  h = hashSHA1 ∨ h = hashSHA224 ∨ h = hashSHA256 ∨ h = hashSHA384 ∨ h = hashSHA512

/-- pbkdf2 `Config.validate`: only the hash name is checked. -/
def validate (c : Config) : Except MErr Unit :=
  if validHash c.Hash then .ok () else .error (.invalidHash c.Hash)

/-- The default pbkdf2 configuration (`GetConfig`): SHA1, 2000 iterations,
key length = SHA1 output size = 20, salt length 16. -/
def GetConfig : Config :=
  { Hash := hashSHA1, Iterations := 2000, KeyLen := 20, SaltLen := 16 }

/-- Bytes of "keylen=". -/
def litKeylen : ByteStr := [107, 101, 121, 108, 101, 110, 61]

/-- Bytes of ",iterations=". -/
def litIterations : ByteStr := [44, 105, 116, 101, 114, 97, 116, 105, 111, 110, 115, 61]

/-- Bytes of ",hmac=". -/
def litHmac : ByteStr := [44, 104, 109, 97, 99, 61]

/-- pbkdf2 `Config.Params`: the format string "keylen=%d,iterations=%d,hmac=%s"
rendered with the configuration's values. -/
def Params (c : Config) : ByteStr :=
  litKeylen ++ (intBytes c.KeyLen ++ (litIterations ++ (intBytes c.Iterations ++ (litHmac ++ c.Hash))))

/-- pbkdf2 `Config.SetParams`: `fmt.Sscanf` against the same format string,
writing the scanned key length, iteration count and hash into the receiver
(the salt length is not part of the format), then `validate`. -/
def SetParams (c : Config) (s : ByteStr) : Except MErr Config :=
  match parseLit litKeylen s with
  | .error e => .error e
  | .ok s1 =>
    match parseIntB s1 with
    | .error e => .error e
    | .ok (kl, s2) =>
      match parseLit litIterations s2 with
      | .error e => .error e
      | .ok s3 =>
        match parseIntB s3 with
        | .error e => .error e
        | .ok (it, s4) =>
          match parseLit litHmac s4 with
          | .error e => .error e
          | .ok s5 =>
            match takeNonSpace s5 with
            | ([], _) => .error .paramScan
            | (h, _) =>
              let c' : Config := { c with KeyLen := kl, Iterations := it, Hash := h }
              match validate c' with
              | .error e => .error e
              | .ok _ => .ok c'

/-- pbkdf2 `Config.AtLeast`: receiver (the stored parameters) is at least as
strong as the argument (the current parameters) — no tracked field smaller.
Tracked fields: Iterations, KeyLen, SaltLen (the hash is not compared). -/
def AtLeast (c current : Config) : Bool :=
  !(c.Iterations < current.Iterations ∨ c.KeyLen < current.KeyLen ∨ c.SaltLen < current.SaltLen)

end Pbkdf2

/-! ## Package scrypt: the scrypt parameter set (src/scrypt/scrypt.go) -/

namespace Scrypt

/-- The scrypt `Config`: key length, salt length, log2 cost, block size and
parallelization parameters (Go `int`s). -/
structure Config where
  KeyLen : Int
  SaltLen : Int
  LgN : Int
  R : Int
  P : Int
deriving DecidableEq

/-- Bytes of "KeyLen". -/
def nameKeyLen : ByteStr := [75, 101, 121, 76, 101, 110]

/-- Bytes of "LgN". -/
def nameLgN : ByteStr := [76, 103, 78]

/-- Bytes of "R". -/
def nameR : ByteStr := [82]

/-- Bytes of "P". -/
def nameP : ByteStr := [80]

/-- scrypt `Config.validate`: KeyLen, LgN, R, P must each be strictly
positive, checked in that order; SaltLen is not validated. -/
def validate (c : Config) : Except MErr Unit :=
  if c.KeyLen ≤ 0 then .error (.invalidParam nameKeyLen c.KeyLen)
  else if c.LgN ≤ 0 then .error (.invalidParam nameLgN c.LgN)
  else if c.R ≤ 0 then .error (.invalidParam nameR c.R)
  else if c.P ≤ 0 then .error (.invalidParam nameP c.P)
  else .ok ()

/-- The default scrypt configuration (`GetConfig`): KeyLen 128, SaltLen 16,
LgN 16, R 10, P 2. -/
def GetConfig : Config := { KeyLen := 128, SaltLen := 16, LgN := 16, R := 10, P := 2 }

/-- Bytes of "KeyLen=". -/
def litKeyLen : ByteStr := [75, 101, 121, 76, 101, 110, 61]

/-- Bytes of ",LgN=". -/
def litLgN : ByteStr := [44, 76, 103, 78, 61]

/-- Bytes of ",R=". -/
def litR : ByteStr := [44, 82, 61]

/-- Bytes of ",P=". -/
def litP : ByteStr := [44, 80, 61]

/-- scrypt `Config.Params`: the format string "KeyLen=%d,LgN=%d,R=%d,P=%d"
rendered with the configuration's values. -/
def Params (c : Config) : ByteStr :=
  litKeyLen ++ (intBytes c.KeyLen ++ (litLgN ++ (intBytes c.LgN ++ (litR ++ (intBytes c.R ++ (litP ++ intBytes c.P))))))

/-- scrypt `Config.SetParams`: `fmt.Sscanf` against the same format string
(the salt length is not part of the format), then `validate`. -/
def SetParams (c : Config) (s : ByteStr) : Except MErr Config :=
  match parseLit litKeyLen s with
  | .error e => .error e
  | .ok s1 =>
    match parseIntB s1 with
    | .error e => .error e
    | .ok (kl, s2) =>
      match parseLit litLgN s2 with
      | .error e => .error e
      | .ok s3 =>
        match parseIntB s3 with
        | .error e => .error e
        | .ok (lgN, s4) =>
          match parseLit litR s4 with
          | .error e => .error e
          | .ok s5 =>
            match parseIntB s5 with
            | .error e => .error e
            | .ok (r, s6) =>
              match parseLit litP s6 with
              | .error e => .error e
              | .ok s7 =>
                match parseIntB s7 with
                | .error e => .error e
                | .ok (p, _) =>
                  let c' : Config := { c with KeyLen := kl, LgN := lgN, R := r, P := p }
                  match validate c' with
                  | .error e => .error e
                  | .ok _ => .ok c'

/-- scrypt `Config.AtLeast`: no tracked field of the receiver (the stored
parameters) smaller than in the argument (the current parameters).  Tracked
fields: LgN, R, P, KeyLen (SaltLen is not compared). -/
def AtLeast (c current : Config) : Bool :=
  !(c.LgN < current.LgN ∨ c.R < current.R ∨ c.P < current.P ∨ c.KeyLen < current.KeyLen)

end Scrypt

/-! ## Package mcf: salt mining -/

/-- `mcf.Salt` with a custom `SaltMiner` installed (the source's injection
point for the random source): call the miner, propagate its error, and fail
with the short-salt-read error when it returns the wrong number of bytes. -/
def mcfSalt (size : Int) (miner : Int → Except MErr ByteStr) : Except MErr ByteStr :=
  match miner size with
  | .error e => .error e
  | .ok salt => if (salt.length : Int) = size then .ok salt else .error (.shortSalt size salt.length)

/-! ## Package bridge: the generic adapter -/

/-- The `bridge.Implementer` interface, as a record of operations over an
implementation type `I`.  `key` is the opaque digest primitive seam. -/
structure Impl (I : Type) where
  params : I → ByteStr
  setParams : I → ByteStr → Except MErr I
  salt : I → Except MErr ByteStr
  key : I → ByteStr → ByteStr → Except MErr ByteStr
  atLeast : I → I → Bool

/-- A `bridge.Encoder`: the adapter name (`Id()`), the fresh implementer the
zero-argument constructor returns (the constructor copies the registered
configuration, so every call yields this same value), and the implementer
operations. -/
structure BEncoder (I : Type) where
  name : ByteStr
  fresh : I
  ops : Impl I

/-- `bridge.Encoder.Create`: build a fresh implementer, serialize its
parameters, mine a salt, compute the key, and serialize the password record. -/
def BEncoder.Create {I : Type} (enc : BEncoder I) (plaintext : ByteStr) :
    Except MErr ByteStr :=
  let imp := enc.fresh
  match enc.ops.salt imp with
  | .error e => .error e
  | .ok salt =>
    match enc.ops.key imp plaintext salt with
    | .error e => .error e
    | .ok key => .ok (Passwd.Bytes ⟨enc.name, enc.ops.params imp, salt, key⟩)

/-- `bridge.Encoder.Verify`: parse the record, restore the stored parameters
into a fresh implementer, recompute the key over the stored salt, and compare
(constant-time in the source) with the stored key. -/
def BEncoder.Verify {I : Type} (enc : BEncoder I) (plaintext encoded : ByteStr) :
    Except MErr Bool :=
  match Passwd.Parse enc.name encoded with
  | .error e => .error e
  | .ok pw =>
    match enc.ops.setParams enc.fresh pw.Params with
    | .error e => .error e
    | .ok imp =>
      match enc.ops.key imp plaintext pw.Salt with
      | .error e => .error e
      | .ok testKey => .ok (pw.Key == testKey)

/-- `bridge.Encoder.IsCurrent`: parse the record, restore the stored
parameters into a fresh implementer, and ask whether the stored parameters
are at least as strong as a second fresh (live) implementer:
`imp.AtLeast(enc.implementer())`. -/
def BEncoder.IsCurrent {I : Type} (enc : BEncoder I) (encoded : ByteStr) :
    Except MErr Bool :=
  match Passwd.Parse enc.name encoded with
  | .error e => .error e
  | .ok pw =>
    match enc.ops.setParams enc.fresh pw.Params with
    | .error e => .error e
    | .ok imp => .ok (enc.ops.atLeast imp enc.fresh)

/-- Bytes of "pbkdf2", the identifier passed to `bridge.New` by the pbkdf2
package. -/
def pbkdf2Name : ByteStr := [112, 98, 107, 100, 102, 50]

/-- The pbkdf2 `bridge.Implementer` operations.  `kdf` is the external
`pbkdf2.Key` primitive (password, salt, iteration count, key length, hash);
the Go `Key` method never returns an error.  `miner` is the salt source. -/
def pbkdf2Impl (kdf : ByteStr → ByteStr → Int → Int → ByteStr → ByteStr)
    (miner : Int → Except MErr ByteStr) : Impl Pbkdf2.Config where
  params := Pbkdf2.Params
  setParams := Pbkdf2.SetParams
  salt := fun c => mcfSalt c.SaltLen miner
  key := fun c password salt => .ok (kdf password salt c.Iterations c.KeyLen c.Hash)
  atLeast := Pbkdf2.AtLeast

/-- The pbkdf2 encoder produced by `bridge.New([]byte("pbkdf2"), fn)` where
`fn` returns a copy of `config`. -/
def pbkdf2Bridge (kdf : ByteStr → ByteStr → Int → Int → ByteStr → ByteStr)
    (miner : Int → Except MErr ByteStr) (config : Pbkdf2.Config) : BEncoder Pbkdf2.Config :=
  ⟨pbkdf2Name, config, pbkdf2Impl kdf miner⟩

/-! ## Package mcf: the registry -/

/-- A registered `instance`: the adapter's identifier bytes plus its three
`encoder.Encoder` operations (create/generate, verify, is-current). -/
structure REnc where
  id : ByteStr
  gen : ByteStr → Except MErr ByteStr
  verify : ByteStr → ByteStr → Except MErr Bool
  isCurrent : ByteStr → Except MErr Bool

/-- Wrap a bridge encoder as a registry instance (what
`mcf.Register(encoding, encoder)` stores: `instance{id: encoder.Id(), ...}`). -/
def toREnc {I : Type} (enc : BEncoder I) : REnc :=
  ⟨enc.name, enc.Create, enc.Verify, enc.IsCurrent⟩

/-- `maxEncoding`: BCRYPT, SCRYPT, PBKDF2, CRYPT make four slots. -/
def maxEncoding : Nat := 4

/-- The registry state of the mcf package: the `defaultEncoding` variable and
the four-slot `encoders` array. -/
structure McfState where
  defaultEncoding : Nat
  encoders : List (Option REnc)

/-- The initial registry state: no encoders, `defaultEncoding = maxEncoding`
(invalid). -/
def initState : McfState := ⟨maxEncoding, [none, none, none, none]⟩

/-- `Encoding.IsValid`: the value is below `maxEncoding` (Go also checks
non-negativity, automatic for `Nat`). -/
def encValid (e : Nat) : Bool := e < maxEncoding

/-- `mcf.Register`: reject invalid encodings and empty identifiers, store the
instance in its slot, and make it the default if no valid default exists. -/
def mcfRegister (st : McfState) (encoding : Nat) (enc : REnc) : Except MErr McfState :=
  if !encValid encoding then .error .invalidEncoding
  else if enc.id = [] then .error .emptyId
  else
    let st1 : McfState := { st with encoders := st.encoders.set encoding (some enc) }
    .ok (if encValid st1.defaultEncoding then st1 else { st1 with defaultEncoding := encoding })

/-- `mcf.SetDefault`: reject invalid encodings and empty slots, then set the
default. -/
def mcfSetDefault (st : McfState) (encoding : Nat) : Except MErr McfState :=
  if !encValid encoding then .error .invalidEncoding
  else
    match st.encoders[encoding]? with
    | some (some _) => .ok { st with defaultEncoding := encoding }
    | _ => .error .unregisteredEncoding

/-- `mcf.Generate`: dispatch the plaintext to the default slot's encoder;
error if no valid default; the `missingImpl` branch is the source's
"missing implementation" panic. -/
def mcfGenerate (st : McfState) (plaintext : ByteStr) : Except MErr ByteStr :=
  if !encValid st.defaultEncoding then .error .noEncoders
  else
    match st.encoders[st.defaultEncoding]? with
    | some (some enc) => enc.gen plaintext
    | _ => .error .missingImpl

/-- The match condition of `mcf.findInstance` for one slot: the input is
non-empty and the slot's identifier is a byte-prefix of the input with its
first byte dropped. -/
def slotMatch (encoded : ByteStr) (slot : Option REnc) : Bool :=
  match slot with
  | none => false
  | some e => !encoded.isEmpty && e.id.isPrefixOf (encoded.drop 1)

/-- Scanning loop of `mcf.findInstance`, starting at slot index `i`. -/
def findAux (i : Nat) (slots : List (Option REnc)) (encoded : ByteStr) : Nat × Option REnc :=
  match slots with
  | [] => (maxEncoding, none)
  | s :: rest =>
    match s with
    | none => findAux (i + 1) rest encoded
    | some e => if slotMatch encoded (some e) then (i, some e) else findAux (i + 1) rest encoded

/-- `mcf.findInstance`: scan the slots in ascending encoding order and return
the first registered slot whose identifier matches; `(maxEncoding, none)` if
none does. -/
def findInstance (st : McfState) (encoded : ByteStr) : Nat × Option REnc :=
  findAux 0 st.encoders encoded

/-- `mcf.Verify`: resolve the encoded password to its encoder and delegate;
`errNoEncoder` if resolution fails. -/
def mcfVerify (st : McfState) (plaintext encoded : ByteStr) : Except MErr Bool :=
  match (findInstance st encoded).2 with
  | none => .error .noEncoder
  | some enc => enc.verify plaintext encoded

/-- `mcf.IsCurrent`: resolve, delegate to the encoder's `IsCurrent`, and on a
non-error `true` result additionally require that the resolved encoding is
the default encoding. -/
def mcfIsCurrent (st : McfState) (encoded : ByteStr) : Except MErr Bool :=
  match findInstance st encoded with
  | (_, none) => .error .noEncoder
  | (encoding, some enc) =>
    match enc.isCurrent encoded with
    | .error e => .error e
    | .ok b => .ok (b && (encoding == st.defaultEncoding))

/-- The registry's public operations, for reasoning about every reachable
registry state.  `register`/`setDefault` may change the state; the read
operations never do. -/
inductive McfOp where
  | register (encoding : Nat) (enc : REnc)
  | setDefault (encoding : Nat)
  | generate (plaintext : ByteStr)
  | verify (plaintext encoded : ByteStr)
  | isCurrent (encoded : ByteStr)

/-- One registry transition: a failing `Register`/`SetDefault` leaves the
state unchanged (the source validates before mutating); `Generate`, `Verify`
and `IsCurrent` never mutate. -/
def mcfStep (st : McfState) (op : McfOp) : McfState :=
  match op with
  | .register e enc =>
    match mcfRegister st e enc with
    | .ok st' => st'
    | .error _ => st
  | .setDefault e =>
    match mcfSetDefault st e with
    | .ok st' => st'
    | .error _ => st
  | _ => st

/-- The registry state after a sequence of public operations from startup. -/
def mcfRun (ops : List McfOp) : McfState := ops.foldl mcfStep initState

/-! ## Spec-side definitions and concrete fixtures for the claims -/

/-- Executable success test for an embedded operation result. -/
def isOkE {A : Type} (x : Except MErr A) : Bool :=
  match x with
  | .ok _ => true
  | .error _ => false

/-- Modelled from the spec (claim C4 as stated): `Parse` succeeds exactly when
the input is non-empty, begins with the separator, splits into exactly four
fields, and the name field equals the expected name.  (The code's additional
decode failures are deliberately absent here.) -/
def parseOkClaim (name encoded : ByteStr) : Bool :=
  match encoded with
  | [] => false
  | b :: rest =>
    (b == 36) &&
    (match splitSep rest with
     | [p0, _, _, _] => p0 == name
     | _ => false)

/-- The amended success condition for `Parse`: as `parseOkClaim`, plus both
the salt field and the key field must decode. -/
def parseOkAmended (name encoded : ByteStr) : Bool :=
  match encoded with
  | [] => false
  | b :: rest =>
    (b == 36) &&
    (match splitSep rest with
     | [p0, _, p2, p3] => p0 == name && isOkE (decode p2) && isOkE (decode p3)
     | _ => false)

/-- Bytes of "$x$y$ZZ$ZZ": four well-shaped fields whose salt field fails
base64 decoding. -/
def c4Input : ByteStr := [36, 120, 36, 121, 36, 90, 90, 36, 90, 90]

/-- Hex alphabet membership (bytes `0-9`, `a-f`, `A-F`). -/
def hexAlphabet (c : Nat) : Bool :=
  (48 ≤ c && c ≤ 57) || (97 ≤ c && c ≤ 102) || (65 ≤ c && c ≤ 70)

/-- Modelled from the spec (claim C8 as stated): treat the field as hex
exactly when every character is from the hex alphabet and none is a
base64-only character; otherwise decode as base64. -/
def decodeClaim (encoded : ByteStr) : Except MErr ByteStr :=
  if encoded.all hexAlphabet && !(encoded.any fun c => b64NotHex.contains c) then
    hexDecode encoded
  else b64Decode encoded

/-- A well-formed record whose salt ([0,0,0], base64 "AAAA") is mis-detected
as hex on decode. -/
def c3Rec : Passwd := ⟨[97, 98], [120], [0, 0, 0], [1]⟩

/-- A pbkdf2 configuration with a non-default salt length. -/
def c9Cfg : Pbkdf2.Config :=
  { Hash := Pbkdf2.hashSHA1, Iterations := 2000, KeyLen := 20, SaltLen := 32 }

/-- A placeholder digest primitive (never consulted by `IsCurrent`). -/
def c1Kdf : ByteStr → ByteStr → Int → Int → ByteStr → ByteStr := fun _ _ _ _ _ => []

/-- A placeholder salt miner (never consulted by `IsCurrent`). -/
def c1Miner : Int → Except MErr ByteStr := fun _ => .ok []

/-- The configuration a stored record was created under: 2000 iterations. -/
def c1Stored : Pbkdf2.Config :=
  { Hash := Pbkdf2.hashSHA1, Iterations := 2000, KeyLen := 20, SaltLen := 16 }

/-- A live configuration whose iteration count was lowered to 1000. -/
def c1Live : Pbkdf2.Config :=
  { Hash := Pbkdf2.hashSHA1, Iterations := 1000, KeyLen := 20, SaltLen := 16 }

/-- The parsed form of the stored record used for claim C1. -/
def c1Pw : Passwd := ⟨pbkdf2Name, Pbkdf2.Params c1Stored, [18], [52]⟩

/-- The stored record used for claim C1 (created under `c1Stored`). -/
def c1Rec : ByteStr := Passwd.Bytes c1Pw

/-- A digest primitive returning the plaintext itself (claim C5 fixture). -/
def c5Kdf : ByteStr → ByteStr → Int → Int → ByteStr → ByteStr := fun p _ _ _ _ => p

/-- A placeholder salt miner (never consulted by `Verify`). -/
def c5Miner : Int → Except MErr ByteStr := fun _ => .ok []

/-- The parsed form of the record used for claim C5. -/
def c5Pw : Passwd := ⟨pbkdf2Name, Pbkdf2.Params Pbkdf2.GetConfig, [18], [52]⟩

/-- The stored record used for claim C5. -/
def c5Rec : ByteStr := Passwd.Bytes c5Pw

/-- A constant digest primitive for the claim C2 witness. -/
def c2wKdf : ByteStr → ByteStr → Int → Int → ByteStr → ByteStr := fun _ _ _ _ _ => [5]

/-- A small valid pbkdf2 configuration (salt length 1) for the C2 witness. -/
def c2wCfg : Pbkdf2.Config :=
  { Hash := Pbkdf2.hashSHA1, Iterations := 3, KeyLen := 1, SaltLen := 1 }

/-- Registry with the C2-witness pbkdf2 encoder registered (and default). -/
def c2wSt : McfState :=
  mcfRun [.register 2 (toREnc (pbkdf2Bridge c2wKdf (fun _ => .ok [18]) c2wCfg))]

/-- The record the C2 witness generates. -/
def c2wRec : ByteStr := Passwd.Bytes ⟨pbkdf2Name, Pbkdf2.Params c2wCfg, [18], [5]⟩

/-- A constant digest primitive for the claim C2 counterexample. -/
def c2CexKdf : ByteStr → ByteStr → Int → Int → ByteStr → ByteStr := fun _ _ _ _ _ => [1]

/-- A salt miner returning sixteen zero bytes — a value the default
`crypto/rand` source can produce. -/
def c2CexMiner : Int → Except MErr ByteStr := fun _ => .ok (List.replicate 16 0)

/-- Registry with the default pbkdf2 configuration and the all-zero salt
miner registered. -/
def c2CexSt : McfState :=
  mcfRun [.register 2 (toREnc (pbkdf2Bridge c2CexKdf c2CexMiner Pbkdf2.GetConfig))]

/-- The record `Generate` produces in the C2 counterexample: its salt
base64-encodes to "AAAAAAAAAAAAAAAAAAAAAA==", which the auto-detecting
decoder routes to the hex decoder. -/
def c2CexRec : ByteStr :=
  Passwd.Bytes ⟨pbkdf2Name, Pbkdf2.Params Pbkdf2.GetConfig, List.replicate 16 0, [1]⟩

/-- A registered encoder with identifier "sc" whose operations are stubs
(the registry treats instances opaquely). -/
def c6EncA : REnc :=
  ⟨[115, 99], fun _ => .ok [], fun _ _ => .ok true, fun _ => .ok true⟩

/-- A registered encoder with identifier "pb" whose `IsCurrent` always
reports `true`. -/
def c6EncB : REnc :=
  ⟨[112, 98], fun _ => .ok [], fun _ _ => .ok true, fun _ => .ok true⟩

/-- Registry with "sc" at slot 1 (the default) and "pb" at slot 2. -/
def c6St : McfState := mcfRun [.register 1 c6EncA, .register 2 c6EncB]

/-- Bytes of "$pb$": resolves to slot 2, not the default slot 1. -/
def c6Rec : ByteStr := [36, 112, 98, 36]

/-- A registered encoder with identifier "sc" (a strict prefix of "scrypt"). -/
def c7EncA : REnc :=
  ⟨[115, 99], fun _ => .ok [], fun _ _ => .ok true, fun _ => .ok true⟩

/-- A registered encoder with identifier "scrypt". -/
def c7EncB : REnc :=
  ⟨[115, 99, 114, 121, 112, 116], fun _ => .ok [], fun _ _ => .ok true, fun _ => .ok true⟩

/-- Registry with the mutually-prefixing identifiers "sc" (slot 1) and
"scrypt" (slot 2). -/
def c7St : McfState := mcfRun [.register 1 c7EncA, .register 2 c7EncB]

/-- Bytes of "$scrypt$": matched by both identifiers. -/
def c7Rec : ByteStr := [36, 115, 99, 114, 121, 112, 116, 36]

/-- No slot of the given list matches the encoded input. -/
def noSlotMatches (encoded : ByteStr) (slots : List (Option REnc)) : Bool :=
  slots.all fun s => !(slotMatch encoded s)

/-- The registry invariant: four slots, and a valid default encoding always
indexes an occupied slot. -/
def McfInv (st : McfState) : Prop :=
  st.encoders.length = 4 ∧
  (st.defaultEncoding < 4 → ∃ enc, st.encoders[st.defaultEncoding]? = some (some enc))

/-! ## Helper lemmas about the codec -/

/-- Splitting a separator-free byte string yields that single field. -/
theorem splitSep_no_sep (l : ByteStr) (h : ¬ 36 ∈ l) : splitSep l = [l] := by
  induction l with
  | nil => rfl
  | cons c rest ih =>
    have hc : ¬ c = 36 := fun hc => h (hc ▸ List.mem_cons_self c rest)
    have hrest : ¬ 36 ∈ rest := fun hm => h (List.mem_cons_of_mem c hm)
    simp only [splitSep, if_neg hc, ih hrest]

/-- Splitting peels off a leading separator-free field. -/
theorem splitSep_append (a b : ByteStr) (h : ¬ 36 ∈ a) :
    splitSep (a ++ 36 :: b) = a :: splitSep b := by
  induction a with
  | nil => simp [splitSep]
  | cons c a' ih =>
    have hc : ¬ c = 36 := fun hc => h (hc ▸ List.mem_cons_self c a')
    have ha' : ¬ 36 ∈ a' := fun hm => h (List.mem_cons_of_mem c hm)
    simp only [List.cons_append, splitSep, if_neg hc]
    rw [List.append_eq, ih ha']

/-- No base64 alphabet byte is the separator. -/
theorem b64Char_ne_sep (n : Nat) : b64Char n ≠ 36 := by
  unfold b64Char
  split
  · omega
  · split
    · omega
    · split
      · omega
      · split <;> omega

/-- Base64-encoded data never contains the separator byte. -/
theorem sep_not_mem_EncodeBase64 (s : ByteStr) : ¬ 36 ∈ EncodeBase64 s := by
  induction s using EncodeBase64.induct with
  | case1 =>
    simp [EncodeBase64]
  | case2 a =>
    simp only [EncodeBase64, List.mem_cons, List.not_mem_nil, or_false]
    intro hm
    rcases hm with h | h | h | h <;> first
      | exact b64Char_ne_sep _ h.symm
      | omega
  | case3 a b =>
    simp only [EncodeBase64, List.mem_cons, List.not_mem_nil, or_false]
    intro hm
    rcases hm with h | h | h | h <;> first
      | exact b64Char_ne_sep _ h.symm
      | omega
  | case4 a b c rest ih =>
    simp only [EncodeBase64, List.mem_cons]
    intro hm
    rcases hm with h | h | h | h | h
    · exact b64Char_ne_sep _ h.symm
    · exact b64Char_ne_sep _ h.symm
    · exact b64Char_ne_sep _ h.symm
    · exact b64Char_ne_sep _ h.symm
    · exact ih h

/-- A list is a `isPrefixOf` itself followed by anything. -/
theorem isPrefixOf_append_self (l r : ByteStr) : l.isPrefixOf (l ++ r) = true := by
  induction l with
  | nil => simp [List.isPrefixOf]
  | cons c t ih => simp [List.isPrefixOf, ih]

/-- Parsing a serialized record with separator-free name and params and
correctly auto-detected salt/key encodings recovers the record exactly. -/
theorem parse_bytes_ok (name params salt key : ByteStr)
    (hn : ¬ 36 ∈ name) (hp : ¬ 36 ∈ params)
    (hs : decode (EncodeBase64 salt) = .ok salt)
    (hk : decode (EncodeBase64 key) = .ok key) :
    Passwd.Parse name (Passwd.Bytes ⟨name, params, salt, key⟩) =
      .ok ⟨name, params, salt, key⟩ := by
  have hsep : ¬ 36 ∈ EncodeBase64 salt := sep_not_mem_EncodeBase64 salt
  have hkey : ¬ 36 ∈ EncodeBase64 key := sep_not_mem_EncodeBase64 key
  simp only [Passwd.Bytes, Passwd.Parse, if_pos rfl]
  rw [splitSep_append _ _ hn, splitSep_append _ _ hp, splitSep_append _ _ hsep,
    splitSep_no_sep _ hkey]
  simp only [if_pos rfl, hs, hk]
  simp

/-! ## Helper lemmas about parameter serialization -/

/-- "The next byte is not a digit": guard for greedy `%d` scanning. -/
def headNotDigit (l : ByteStr) : Prop :=
  match l with
  | [] => True
  | c :: _ => ¬(48 ≤ c ∧ c ≤ 57)

/-- All bytes produced by `digitsAux` are ASCII digits. -/
theorem digitsAux_digits (fuel : Nat) :
    ∀ n, n ≤ fuel → ∀ c ∈ digitsAux fuel n, 48 ≤ c ∧ c ≤ 57 := by
  induction fuel with
  | zero => intro n _ c hc; simp [digitsAux] at hc
  | succ f ih =>
    intro n hn c hc
    simp only [digitsAux] at hc
    by_cases h0 : n = 0
    · simp [h0] at hc
    · rw [if_neg h0] at hc
      rcases List.mem_append.mp hc with h | h
      · exact ih (n / 10) (by omega) c h
      · simp at h
        omega

/-- `digitsAux` with enough fuel is nonempty for a nonzero input. -/
theorem digitsAux_ne_nil (fuel n : Nat) (hn : n ≠ 0) (hf : n ≤ fuel) :
    digitsAux fuel n ≠ [] := by
  cases fuel with
  | zero => omega
  | succ f =>
    simp only [digitsAux, if_neg hn]
    intro h
    rcases List.append_eq_nil.mp h with ⟨_, h2⟩
    exact List.cons_ne_nil _ _ h2

/-- Appending one digit multiplies the accumulated value by ten. -/
theorem digitsToNat_append (l : ByteStr) (d : Nat) :
    digitsToNat (l ++ [d]) = digitsToNat l * 10 + (d - 48) := by
  simp [digitsToNat, List.foldl_append]

/-- `digitsAux` renders exactly its input value. -/
theorem digitsAux_value (fuel : Nat) :
    ∀ n, n ≤ fuel → digitsToNat (digitsAux fuel n) = n := by
  induction fuel with
  | zero =>
    intro n hn
    have : n = 0 := by omega
    simp [this, digitsAux, digitsToNat]
  | succ f ih =>
    intro n hn
    simp only [digitsAux]
    by_cases h0 : n = 0
    · simp [h0, digitsToNat]
    · rw [if_neg h0, digitsToNat_append, ih (n / 10) (by omega)]
      omega

/-- All bytes of `natBytes` are ASCII digits. -/
theorem natBytes_digits (n : Nat) : ∀ c ∈ natBytes n, 48 ≤ c ∧ c ≤ 57 := by
  unfold natBytes
  by_cases h0 : n = 0
  · simp [h0]
  · rw [if_neg h0]
    exact digitsAux_digits (n + 1) n (by omega)

/-- `natBytes` is never empty. -/
theorem natBytes_ne_nil (n : Nat) : natBytes n ≠ [] := by
  unfold natBytes
  by_cases h0 : n = 0
  · simp [h0]
  · rw [if_neg h0]
    exact digitsAux_ne_nil (n + 1) n h0 (by omega)

/-- `digitsToNat` inverts `natBytes`. -/
theorem digitsToNat_natBytes (n : Nat) : digitsToNat (natBytes n) = n := by
  unfold natBytes
  by_cases h0 : n = 0
  · simp [h0, digitsToNat]
  · rw [if_neg h0]
    exact digitsAux_value (n + 1) n (by omega)

/-- Greedy digit scanning consumes exactly a digit block followed by a
non-digit continuation. -/
theorem takeDigits_append (ds rest : ByteStr)
    (hds : ∀ c ∈ ds, 48 ≤ c ∧ c ≤ 57) (hrest : headNotDigit rest) :
    takeDigits (ds ++ rest) = (ds, rest) := by
  induction ds with
  | nil =>
    cases rest with
    | nil => rfl
    | cons c t =>
      simp only [List.nil_append, takeDigits]
      rw [if_neg hrest]
  | cons c ds' ih =>
    have hc : 48 ≤ c ∧ c ≤ 57 := hds c (List.mem_cons_self c ds')
    have hds' : ∀ x ∈ ds', 48 ≤ x ∧ x ≤ 57 := fun x hx => hds x (List.mem_cons_of_mem c hx)
    simp only [List.cons_append, takeDigits, if_pos hc]
    have hrw : ds'.append rest = ds' ++ rest := rfl
    rw [hrw, ih hds']

/-- `parseIntB` inverts `intBytes` when the continuation does not begin with
a digit. -/
theorem parseIntB_append (i : Int) (rest : ByteStr) (h : headNotDigit rest) :
    parseIntB (intBytes i ++ rest) = .ok (i, rest) := by
  by_cases hneg : i < 0
  · have habs : intBytes i = 45 :: natBytes i.natAbs := by
      unfold intBytes
      rw [if_pos hneg]
    rw [habs]
    simp only [List.cons_append, parseIntB, if_pos rfl]
    rw [takeDigits_append _ _ (natBytes_digits i.natAbs) h]
    have hne := natBytes_ne_nil i.natAbs
    cases hnb : natBytes i.natAbs with
    | nil => exact absurd hnb hne
    | cons c t =>
      simp only
      rw [← hnb, digitsToNat_natBytes]
      have : -(i.natAbs : Int) = i := by omega
      rw [this]
      simp
  · have habs : intBytes i = natBytes i.toNat := by
      unfold intBytes
      rw [if_neg hneg]
    rw [habs]
    have hne := natBytes_ne_nil i.toNat
    have hdig := natBytes_digits i.toNat
    cases hnb : natBytes i.toNat with
    | nil => exact absurd hnb hne
    | cons c t =>
      have hc : 48 ≤ c ∧ c ≤ 57 := by
        have := hdig c
        rw [hnb] at this
        exact this (List.mem_cons_self c t)
      have hc45 : ¬ c = 45 := by omega
      simp only [List.cons_append, parseIntB, if_neg hc45]
      have := takeDigits_append (c :: t) rest (by rw [← hnb]; exact hdig) h
      simp only [List.cons_append] at this
      rw [this]
      simp only
      rw [← hnb, digitsToNat_natBytes]
      have : (i.toNat : Int) = i := by omega
      rw [this]

/-- Scanning a literal prefix consumes exactly that prefix. -/
theorem parseLit_self (lit rest : ByteStr) : parseLit lit (lit ++ rest) = .ok rest := by
  unfold parseLit
  rw [if_pos (isPrefixOf_append_self lit rest), List.drop_left]

/-- `%s` scanning takes the whole remaining input when it has no spaces. -/
theorem takeNonSpace_all (l : ByteStr) (h : ∀ c ∈ l, c ≠ 32) : takeNonSpace l = (l, []) := by
  induction l with
  | nil => rfl
  | cons c t ih =>
    have hc : ¬ c = 32 := h c (List.mem_cons_self c t)
    simp only [takeNonSpace, if_neg hc]
    rw [ih (fun x hx => h x (List.mem_cons_of_mem c hx))]

/-- The scanner state after consuming a full `%d` rendering with nothing
following. -/
theorem parseIntB_exact (i : Int) : parseIntB (intBytes i) = .ok (i, []) := by
  have h := parseIntB_append i [] trivial
  rwa [List.append_nil] at h

/-- pbkdf2 `SetParams` inverts `Params` for a cons-shaped, space-free, valid
hash name (auxiliary form with the serialized fields spelled out). -/
theorem pbkdf2SetParamsAux (fresh : Pbkdf2.Config) (kl it : Int) (c0 : Nat) (t0 : ByteStr)
    (hv : Pbkdf2.validHash (c0 :: t0) = true) (hns : ∀ x ∈ c0 :: t0, x ≠ 32) :
    Pbkdf2.SetParams fresh
        (Pbkdf2.litKeylen ++ (intBytes kl ++ (Pbkdf2.litIterations ++
          (intBytes it ++ (Pbkdf2.litHmac ++ (c0 :: t0)))))) =
      .ok { fresh with KeyLen := kl, Iterations := it, Hash := c0 :: t0 } := by
  have h1 : headNotDigit (Pbkdf2.litIterations ++ (intBytes it ++ (Pbkdf2.litHmac ++ (c0 :: t0)))) := by
    show ¬(48 ≤ 44 ∧ 44 ≤ 57)
    omega
  have h2 : headNotDigit (Pbkdf2.litHmac ++ (c0 :: t0)) := by
    show ¬(48 ≤ 44 ∧ 44 ≤ 57)
    omega
  unfold Pbkdf2.SetParams
  simp only [parseLit_self, parseIntB_append _ _ h1, parseIntB_append _ _ h2,
    takeNonSpace_all _ hns, Pbkdf2.validate, hv, if_true]

/-- pbkdf2 `SetParams` inverts `Params` on every field the format serializes;
the salt length keeps the receiver's value. -/
theorem pbkdf2SetParamsParams (c fresh : Pbkdf2.Config) (hv : Pbkdf2.validHash c.Hash = true) :
    Pbkdf2.SetParams fresh (Pbkdf2.Params c) = .ok { c with SaltLen := fresh.SaltLen } := by
  have hcases : c.Hash = Pbkdf2.hashSHA1 ∨ c.Hash = Pbkdf2.hashSHA224 ∨
      c.Hash = Pbkdf2.hashSHA256 ∨ c.Hash = Pbkdf2.hashSHA384 ∨ c.Hash = Pbkdf2.hashSHA512 := by
    simpa [Pbkdf2.validHash] using hv
  have hex : ∃ c0 t0, c.Hash = c0 :: t0 ∧ (∀ x ∈ (c0 :: t0 : ByteStr), x ≠ 32) := by
    rcases hcases with h | h | h | h | h <;> rw [h] <;> exact ⟨_, _, rfl, by decide⟩
  obtain ⟨c0, t0, hsh, hns⟩ := hex
  have hv' : Pbkdf2.validHash (c0 :: t0) = true := by rw [← hsh]; exact hv
  unfold Pbkdf2.Params
  rw [hsh, pbkdf2SetParamsAux fresh c.KeyLen c.Iterations c0 t0 hv' hns, ← hsh]

/-- scrypt `SetParams` inverts `Params` on every field the format serializes;
the salt length keeps the receiver's value. -/
theorem scryptSetParamsParams (c fresh : Scrypt.Config)
    (h1 : 0 < c.KeyLen) (h2 : 0 < c.LgN) (h3 : 0 < c.R) (h4 : 0 < c.P) :
    Scrypt.SetParams fresh (Scrypt.Params c) = .ok { c with SaltLen := fresh.SaltLen } := by
  have ha : headNotDigit (Scrypt.litLgN ++ (intBytes c.LgN ++ (Scrypt.litR ++
      (intBytes c.R ++ (Scrypt.litP ++ intBytes c.P))))) := by
    show ¬(48 ≤ 44 ∧ 44 ≤ 57)
    omega
  have hb : headNotDigit (Scrypt.litR ++ (intBytes c.R ++ (Scrypt.litP ++ intBytes c.P))) := by
    show ¬(48 ≤ 44 ∧ 44 ≤ 57)
    omega
  have hc : headNotDigit (Scrypt.litP ++ intBytes c.P) := by
    show ¬(48 ≤ 44 ∧ 44 ≤ 57)
    omega
  unfold Scrypt.SetParams Scrypt.Params
  simp only [parseLit_self, parseIntB_append _ _ ha, parseIntB_append _ _ hb,
    parseIntB_append _ _ hc, parseIntB_exact]
  have hv : Scrypt.validate { c with KeyLen := c.KeyLen, LgN := c.LgN, R := c.R, P := c.P } =
      Scrypt.validate c := by
    simp
  simp only [Scrypt.validate, if_neg (by omega : ¬ c.KeyLen ≤ 0), if_neg (by omega : ¬ c.LgN ≤ 0),
    if_neg (by omega : ¬ c.R ≤ 0), if_neg (by omega : ¬ c.P ≤ 0)]

/-! ## Helper lemmas about the bridge and parameter strings -/

/-- Every byte of an `intBytes` rendering is a minus sign or a digit. -/
theorem intBytes_members (i : Int) : ∀ c ∈ intBytes i, c = 45 ∨ (48 ≤ c ∧ c ≤ 57) := by
  unfold intBytes
  by_cases hneg : i < 0
  · rw [if_pos hneg]
    intro c hc
    rcases List.mem_cons.mp hc with h | h
    · exact Or.inl h
    · exact Or.inr (natBytes_digits _ c h)
  · rw [if_neg hneg]
    intro c hc
    exact Or.inr (natBytes_digits _ c hc)

/-- The separator never occurs in an `intBytes` rendering. -/
theorem sep_not_mem_intBytes (i : Int) : ¬ 36 ∈ intBytes i := by
  intro h
  rcases intBytes_members i 36 h with h' | h' <;> omega

/-- The separator never occurs in a valid pbkdf2 hash name. -/
theorem sep_not_mem_validHash (h : ByteStr) (hv : Pbkdf2.validHash h = true) : ¬ 36 ∈ h := by
  have hcases : h = Pbkdf2.hashSHA1 ∨ h = Pbkdf2.hashSHA224 ∨ h = Pbkdf2.hashSHA256 ∨
      h = Pbkdf2.hashSHA384 ∨ h = Pbkdf2.hashSHA512 := by
    simpa [Pbkdf2.validHash] using hv
  rcases hcases with hc | hc | hc | hc | hc <;> rw [hc] <;> decide

/-- The separator never occurs in a serialized pbkdf2 parameter string with a
valid hash. -/
theorem sep_not_mem_pbkdf2Params (c : Pbkdf2.Config) (hv : Pbkdf2.validHash c.Hash = true) :
    ¬ 36 ∈ Pbkdf2.Params c := by
  unfold Pbkdf2.Params
  intro hm
  simp only [List.mem_append] at hm
  rcases hm with h | h | h | h | h | h
  · exact (by decide : ¬ 36 ∈ Pbkdf2.litKeylen) h
  · exact sep_not_mem_intBytes _ h
  · exact (by decide : ¬ 36 ∈ Pbkdf2.litIterations) h
  · exact sep_not_mem_intBytes _ h
  · exact (by decide : ¬ 36 ∈ Pbkdf2.litHmac) h
  · exact sep_not_mem_validHash _ hv h

/-- `bridge.Encoder.Verify`, unfolded through successful parse, parameter
restoration and key computation. -/
theorem bridgeVerify_eq {I : Type} (enc : BEncoder I) (p encoded : ByteStr) (pw : Passwd)
    (imp : I) (testKey : ByteStr)
    (hp : Passwd.Parse enc.name encoded = .ok pw)
    (hs : enc.ops.setParams enc.fresh pw.Params = .ok imp)
    (hkey : enc.ops.key imp p pw.Salt = .ok testKey) :
    enc.Verify p encoded = .ok (pw.Key == testKey) := by
  simp only [BEncoder.Verify, hp, hs, hkey]

/-- The pbkdf2 `AtLeast` comparison, rephrased as componentwise order. -/
theorem pbkdf2AtLeast_eq (stored live : Pbkdf2.Config) :
    Pbkdf2.AtLeast stored live =
      decide (live.Iterations ≤ stored.Iterations ∧ live.KeyLen ≤ stored.KeyLen ∧
        live.SaltLen ≤ stored.SaltLen) := by
  unfold Pbkdf2.AtLeast
  rw [← decide_not]
  exact decide_eq_decide.mpr (by omega)

/-- `bridge.Encoder.Create` for pbkdf2 with a fixed-output salt miner. -/
theorem pbkdf2Create_eq (kdf : ByteStr → ByteStr → Int → Int → ByteStr → ByteStr)
    (salt : ByteStr) (c : Pbkdf2.Config) (p : ByteStr)
    (hlen : (salt.length : Int) = c.SaltLen) :
    (pbkdf2Bridge kdf (fun _ => .ok salt) c).Create p =
      .ok (Passwd.Bytes ⟨pbkdf2Name, Pbkdf2.Params c, salt,
        kdf p salt c.Iterations c.KeyLen c.Hash⟩) := by
  simp only [BEncoder.Create, pbkdf2Bridge, pbkdf2Impl, mcfSalt, if_pos hlen]

/-! ## Claim C3: codec round-trip -/

/-- Claim C3 (amended): for a record with non-empty fields, separator-free
name and params, whose base64-encoded salt and key are correctly inverted by
the auto-detecting decoder, parsing the serialization yields an equal record
and re-serializing yields the identical byte string. -/
theorem c3_roundtrip (r : Passwd)
    (hne1 : r.Name ≠ []) (hne2 : r.Params ≠ []) (hne3 : r.Salt ≠ []) (hne4 : r.Key ≠ [])
    (hn : ¬ 36 ∈ r.Name) (hp : ¬ 36 ∈ r.Params)
    (hs : decode (EncodeBase64 r.Salt) = .ok r.Salt)
    (hk : decode (EncodeBase64 r.Key) = .ok r.Key) :
    Passwd.Parse r.Name (Passwd.Bytes r) = .ok r ∧
    (Passwd.Parse r.Name (Passwd.Bytes r)).map Passwd.Bytes = .ok (Passwd.Bytes r) := by
  obtain ⟨nm, pr, sa, ke⟩ := r
  have h := parse_bytes_ok nm pr sa ke hn hp hs hk
  exact ⟨h, by rw [h]; rfl⟩

/-- Witness for claim C3 at the record ("ab", "x", [18], [52]). -/
theorem c3_roundtrip_witness :
    Passwd.Parse [97, 98] (Passwd.Bytes ⟨[97, 98], [120], [18], [52]⟩) =
      .ok ⟨[97, 98], [120], [18], [52]⟩ :=
  (c3_roundtrip ⟨[97, 98], [120], [18], [52]⟩ (by decide) (by decide) (by decide) (by decide)
    (by decide) (by decide) (by decide) (by decide)).1

/-- Counterexample to claim C3 as stated: `c3Rec` is well-formed in the
claim's sense (non-empty fields, separator-free name and params), yet
`Bytes(Parse(Bytes(r)))` differs from `Bytes(r)` — its salt [0,0,0] encodes
to base64 "AAAA", which the decoder mis-detects as hex and turns into
[170,170]. -/
theorem c3_cex :
    c3Rec.Name ≠ [] ∧ c3Rec.Params ≠ [] ∧ c3Rec.Salt ≠ [] ∧ c3Rec.Key ≠ [] ∧
    ¬ 36 ∈ c3Rec.Name ∧ ¬ 36 ∈ c3Rec.Params ∧
    (Passwd.Parse c3Rec.Name (Passwd.Bytes c3Rec)).map Passwd.Bytes ≠
      .ok (Passwd.Bytes c3Rec) ∧
    Passwd.Parse c3Rec.Name (Passwd.Bytes c3Rec) =
      .ok ⟨[97, 98], [120], [170, 170], [1]⟩ := by decide

/-! ## Claim C9: parameter serialization round-trip -/

/-- Claim C9 (amended): deserializing a serialized parameter string into a
fresh configuration succeeds and restores every serialized field (pbkdf2:
KeyLen, Iterations, Hash; scrypt: KeyLen, LgN, R, P); the salt length is not
serialized and keeps the deserializing configuration's value. -/
theorem c9_params_roundtrip (c fresh : Pbkdf2.Config) (c2 fresh2 : Scrypt.Config)
    (hv : Pbkdf2.validHash c.Hash = true)
    (h1 : 0 < c2.KeyLen) (h2 : 0 < c2.LgN) (h3 : 0 < c2.R) (h4 : 0 < c2.P) :
    Pbkdf2.SetParams fresh (Pbkdf2.Params c) = .ok { c with SaltLen := fresh.SaltLen } ∧
    Scrypt.SetParams fresh2 (Scrypt.Params c2) = .ok { c2 with SaltLen := fresh2.SaltLen } :=
  ⟨pbkdf2SetParamsParams c fresh hv, scryptSetParamsParams c2 fresh2 h1 h2 h3 h4⟩

/-- Witness for claim C9 at the default configurations. -/
theorem c9_params_roundtrip_witness :
    Pbkdf2.SetParams Pbkdf2.GetConfig (Pbkdf2.Params Pbkdf2.GetConfig) = .ok Pbkdf2.GetConfig ∧
    Scrypt.SetParams Scrypt.GetConfig (Scrypt.Params Scrypt.GetConfig) = .ok Scrypt.GetConfig :=
  c9_params_roundtrip Pbkdf2.GetConfig Pbkdf2.GetConfig Scrypt.GetConfig Scrypt.GetConfig
    (by decide) (by decide) (by decide) (by decide) (by decide)

/-- Counterexample to claim C9 as stated: a valid pbkdf2 configuration with
salt length 32 serializes and deserializes (into a fresh default
configuration) to the default salt length 16 — not every tunable field is
restored. -/
theorem c9_cex :
    Pbkdf2.validHash c9Cfg.Hash = true ∧
    Pbkdf2.SetParams Pbkdf2.GetConfig (Pbkdf2.Params c9Cfg) = .ok Pbkdf2.GetConfig ∧
    Pbkdf2.GetConfig ≠ c9Cfg := by decide

/-! ## Claim C1: adapter IsCurrent -/

/-- Claim C1 (amended): the adapter's `IsCurrent` parses the record,
deserializes its parameters into `storedParams`, and returns
`storedParams.AtLeast(liveParams)` — true exactly when every tracked stored
strength field (Iterations, KeyLen, SaltLen) is at least the corresponding
field of the live default configuration.  (The spec's direction — comparing
the live parameters against the stored ones — is reversed.) -/
theorem c1_isCurrent (kdf : ByteStr → ByteStr → Int → Int → ByteStr → ByteStr)
    (miner : Int → Except MErr ByteStr) (live : Pbkdf2.Config) (encoded : ByteStr)
    (pw : Passwd) (stored : Pbkdf2.Config)
    (hp : Passwd.Parse pbkdf2Name encoded = .ok pw)
    (hs : Pbkdf2.SetParams live pw.Params = .ok stored) :
    (pbkdf2Bridge kdf miner live).IsCurrent encoded =
      .ok (decide (live.Iterations ≤ stored.Iterations ∧ live.KeyLen ≤ stored.KeyLen ∧
        live.SaltLen ≤ stored.SaltLen)) := by
  simp only [BEncoder.IsCurrent, pbkdf2Bridge, pbkdf2Impl, hp, hs]
  rw [pbkdf2AtLeast_eq]

/-- Witness for claim C1: a record created under 2000 iterations is current
under a live configuration lowered to 1000 iterations. -/
theorem c1_isCurrent_witness :
    (pbkdf2Bridge c1Kdf c1Miner c1Live).IsCurrent c1Rec = .ok true :=
  c1_isCurrent c1Kdf c1Miner c1Live c1Rec c1Pw c1Stored (by decide) (by decide)

/-- Counterexample to claim C1 as stated: for the record created under 2000
iterations and a live configuration lowered to 1000 iterations, the adapter
returns `true`, while the claim's `liveParams.atLeast(storedParams)` is
`false` (a tracked live field is below the stored one). -/
theorem c1_cex :
    Passwd.Parse pbkdf2Name c1Rec = .ok c1Pw ∧
    Pbkdf2.SetParams c1Live c1Pw.Params = .ok c1Stored ∧
    (pbkdf2Bridge c1Kdf c1Miner c1Live).IsCurrent c1Rec = .ok true ∧
    Pbkdf2.AtLeast c1Live c1Stored = false := by decide

/-! ## Claim C5: adapter Verify error discipline -/

/-- Claim C5: when parsing and parameter deserialization succeed, the pbkdf2
adapter's `Verify` returns the comparison of the stored key with the freshly
computed digest and a nil error — a digest mismatch is `(false, nil)`, never
an error (the pbkdf2 digest primitive itself never fails).  Consequently a
non-nil error can arise only from parse or parameter-deserialization
failures. -/
theorem c5_verify (kdf : ByteStr → ByteStr → Int → Int → ByteStr → ByteStr)
    (miner : Int → Except MErr ByteStr) (live : Pbkdf2.Config) (p encoded : ByteStr)
    (pw : Passwd) (stored : Pbkdf2.Config)
    (hp : Passwd.Parse pbkdf2Name encoded = .ok pw)
    (hs : Pbkdf2.SetParams live pw.Params = .ok stored) :
    (pbkdf2Bridge kdf miner live).Verify p encoded =
      .ok (pw.Key == kdf p pw.Salt stored.Iterations stored.KeyLen stored.Hash) := by
  simp only [BEncoder.Verify, pbkdf2Bridge, pbkdf2Impl, hp, hs]

/-- Witness for claim C5: a wrong plaintext produces `(false, nil)`, not an
error. -/
theorem c5_verify_witness :
    (pbkdf2Bridge c5Kdf c5Miner Pbkdf2.GetConfig).Verify [7] c5Rec = .ok false :=
  c5_verify c5Kdf c5Miner Pbkdf2.GetConfig [7] c5Rec c5Pw Pbkdf2.GetConfig
    (by decide) (by decide)

/-! ## Claim C4: Parse error conditions -/

/-- Claim C4 (amended): `Parse` succeeds (equivalently, returns an error)
exactly according to `parseOkAmended`: the input must be non-empty, begin
with the separator, split into exactly four fields, have a matching name
field, AND both encoded fields must decode.  The decode failures are the
fifth error source the original claim omits; `Parse` is a total function, so
it never panics. -/
theorem c4_parse_errors (name encoded : ByteStr) :
    isOkE (Passwd.Parse name encoded) = parseOkAmended name encoded := by
  cases encoded with
  | nil => rfl
  | cons b rest =>
    simp only [Passwd.Parse, parseOkAmended]
    by_cases hb : b = 36
    · subst hb
      simp only [if_pos rfl, beq_self_eq_true, Bool.true_and]
      rcases hpl : splitSep rest with _ | ⟨p0, _ | ⟨p1, _ | ⟨p2, _ | ⟨p3, _ | ⟨p4, t⟩⟩⟩⟩⟩
      · simp [isOkE]
      · simp [isOkE]
      · simp [isOkE]
      · simp [isOkE]
      · by_cases hp0 : p0 = name
        · subst hp0
          simp only [if_pos rfl, beq_self_eq_true, Bool.true_and]
          cases hd2 : decode p2 with
          | error e => simp [isOkE]
          | ok s =>
            cases hd3 : decode p3 with
            | error e => simp [isOkE]
            | ok k => simp [isOkE]
        · have : (p0 == name) = false := by simp [hp0]
          simp [if_neg hp0, this, isOkE]
      · simp only [if_true]
        rw [if_neg (show ¬ (p0 :: p1 :: p2 :: p3 :: p4 :: t).length < 4 from
            by simp only [List.length_cons]; omega)]
        rfl
    · have : (b == 36) = false := by simp [hb]
      simp [if_neg hb, this, isOkE]

/-- Counterexample to claim C4 as stated: "$x$y$ZZ$ZZ" is non-empty, begins
with the separator, has exactly four fields and a matching name — by the
claim it must parse — yet `Parse` returns an error, because the salt field
"ZZ" fails base64 decoding. -/
theorem c4_cex :
    parseOkClaim [120] c4Input = true ∧
    Passwd.Parse [120] c4Input = .error .decodeFail := by decide

/-! ## Claim C8: hex/base64 auto-detection -/

/-- Claim C8 (amended): the decoder takes the hex path exactly when the
field contains no byte of the base64-only set (G-Z, g-z, plus, slash, minus,
underscore) — whether or not every byte is in the hex alphabet; all other
fields go to the base64 decoder. -/
theorem c8_detect (encoded : ByteStr) :
    decode encoded =
      if ∀ c ∈ encoded, ¬ c ∈ b64NotHex then hexDecode encoded else b64Decode encoded := by
  unfold decode hexSniff
  have hiff : (encoded.all fun c => !(b64NotHex.contains c)) = true ↔
      ∀ c ∈ encoded, ¬ c ∈ b64NotHex := by
    simp [List.all_eq_true]
  by_cases h : ∀ c ∈ encoded, ¬ c ∈ b64NotHex
  · rw [if_pos (hiff.mpr h), if_pos h]
  · rw [if_neg (fun hb => h (hiff.mp hb)), if_neg h]

/-- Counterexample to claim C8 as stated: the field "AAA=" contains a byte
outside the hex alphabet ('='), so the claim routes it to base64, where it
decodes to [0,0]; the code routes it to the hex decoder (it contains no
base64-only byte), which fails. -/
theorem c8_cex :
    decode [65, 65, 65, 61] = .error .decodeFail ∧
    decodeClaim [65, 65, 65, 61] = .ok [0, 0] ∧
    hexAlphabet 61 = false := by decide

/-! ## Claim C6: registry IsCurrent requires the default encoding -/

/-- Claim C6: when resolution finds slot `i` and the adapter reports `b`
without error, the registry-level `IsCurrent` returns `b && (i == default)`:
a record resolving to a non-default encoding is never current, even when its
adapter reports its parameters current, and `IsCurrent` is true only when the
resolved encoding equals the default AND the adapter reports current. -/
theorem c6_isCurrent_default (st : McfState) (encoded : ByteStr) (i : Nat) (enc : REnc)
    (b : Bool)
    (h1 : findInstance st encoded = (i, some enc))
    (h2 : enc.isCurrent encoded = .ok b) :
    mcfIsCurrent st encoded = .ok (b && (i == st.defaultEncoding)) := by
  simp only [mcfIsCurrent, h1, h2]

/-- Witness for claim C6: a record resolving to slot 2 while the default is
slot 1, with an adapter reporting `true`, yields a registry-level `false`. -/
theorem c6_isCurrent_default_witness : mcfIsCurrent c6St c6Rec = .ok false :=
  c6_isCurrent_default c6St c6Rec 2 c6EncB true rfl rfl

/-! ## Claim C7: resolution order and no-match error -/

/-- Scanning specification of `findAux`: a hit `(i, some enc)` means slot
`i - start` holds `enc`, `enc` matches, and no earlier slot matches; if no
slot matches, the scan returns `(maxEncoding, none)`. -/
theorem findAux_spec (slots : List (Option REnc)) (encoded : ByteStr) :
    ∀ start : Nat,
      (∀ i enc, findAux start slots encoded = (i, some enc) →
        start ≤ i ∧ slots[i - start]? = some (some enc) ∧
        slotMatch encoded (some enc) = true ∧
        noSlotMatches encoded (slots.take (i - start)) = true) ∧
      (noSlotMatches encoded slots = true → findAux start slots encoded = (maxEncoding, none)) := by
  induction slots with
  | nil =>
    intro start
    constructor
    · intro i enc hfind
      simp only [findAux] at hfind
      cases hfind
    · intro _
      rfl
  | cons s rest ih =>
    intro start
    constructor
    · intro i enc hfind
      cases s with
      | none =>
        simp only [findAux] at hfind
        obtain ⟨hle, hget, hm, hall⟩ := (ih (start + 1)).1 i enc hfind
        have hstep : i - start = (i - (start + 1)) + 1 := by omega
        refine ⟨by omega, ?_, hm, ?_⟩
        · rw [hstep]
          simpa using hget
        · rw [hstep]
          simp only [List.take_succ_cons, noSlotMatches, List.all_cons]
          have hnone : slotMatch encoded none = false := rfl
          simp only [hnone, Bool.not_false, Bool.true_and]
          exact hall
      | some e =>
        simp only [findAux] at hfind
        by_cases hm : slotMatch encoded (some e) = true
        · rw [if_pos hm] at hfind
          injection hfind with hi' henc'
          injection henc' with he'
          subst hi'
          subst he'
          refine ⟨Nat.le_refl _, ?_, hm, ?_⟩
          · simp
          · simp [noSlotMatches]
        · rw [if_neg hm] at hfind
          obtain ⟨hle, hget, hmm, hall⟩ := (ih (start + 1)).1 i enc hfind
          have hstep : i - start = (i - (start + 1)) + 1 := by omega
          refine ⟨by omega, ?_, hmm, ?_⟩
          · rw [hstep]
            simpa using hget
          · rw [hstep]
            simp only [List.take_succ_cons, noSlotMatches, List.all_cons]
            have hm' : slotMatch encoded (some e) = false := by
              simpa using hm
            simp only [hm', Bool.not_false, Bool.true_and]
            exact hall
    · intro hall
      simp only [noSlotMatches, List.all_cons, Bool.and_eq_true] at hall
      obtain ⟨hhead, htail⟩ := hall
      cases s with
      | none =>
        simp only [findAux]
        exact (ih (start + 1)).2 htail
      | some e =>
        simp only [findAux]
        rw [if_neg (by simpa using hhead)]
        exact (ih (start + 1)).2 htail

/-- Claim C7: resolution scans the registry slots in ascending encoding-id
order and returns the first registered slot whose identifier is a byte-prefix
of the input with its leading byte skipped (`slotMatch`); with
mutually-prefixing identifiers the lowest id wins (no earlier slot matches);
and when no slot matches, resolution reports `(maxEncoding, none)` and the
registry-level `Verify` fails with the no-matching-encoder error. -/
theorem c7_resolution (st : McfState) (encoded p : ByteStr) :
    (∀ i enc, findInstance st encoded = (i, some enc) →
      st.encoders[i]? = some (some enc) ∧ slotMatch encoded (some enc) = true ∧
      noSlotMatches encoded (st.encoders.take i) = true) ∧
    (noSlotMatches encoded st.encoders = true →
      findInstance st encoded = (maxEncoding, none) ∧
      mcfVerify st p encoded = .error .noEncoder) := by
  have h := findAux_spec st.encoders encoded 0
  constructor
  · intro i enc hfind
    obtain ⟨_, hget, hm, hall⟩ := h.1 i enc hfind
    rw [Nat.sub_zero] at hget hall
    exact ⟨hget, hm, hall⟩
  · intro hall
    have h2 := h.2 hall
    refine ⟨h2, ?_⟩
    simp only [mcfVerify, findInstance, h2]

/-- Witness for claim C7: with "sc" at slot 1 and "scrypt" at slot 2, the
input "$scrypt$" resolves to slot 1 — the lowest-id mutual prefix wins, and
no earlier slot matches. -/
theorem c7_resolution_witness :
    c7St.encoders[1]? = some (some c7EncA) ∧ slotMatch c7Rec (some c7EncA) = true ∧
    noSlotMatches c7Rec (c7St.encoders.take 1) = true :=
  (c7_resolution c7St c7Rec []).1 1 c7EncA rfl

/-! ## Claim C10: registry invariant and Generate safety -/

/-- Every registry transition preserves the invariant: four slots, and a
valid default encoding always indexes an occupied slot. -/
theorem mcfInv_step (st : McfState) (op : McfOp) (h : McfInv st) : McfInv (mcfStep st op) := by
  obtain ⟨hlen, hdef⟩ := h
  cases op with
  | register e enc =>
    simp only [mcfStep, mcfRegister]
    by_cases hval : encValid e = true
    · simp only [hval, Bool.not_true, Bool.false_eq_true, if_false]
      by_cases hid : enc.id = []
      · simp only [if_pos hid]
        exact ⟨hlen, hdef⟩
      · simp only [if_neg hid]
        have he4 : e < 4 := by
          simpa [encValid, maxEncoding] using hval
        by_cases hd : encValid st.defaultEncoding = true
        · simp only [hd, if_true]
          refine ⟨by simpa using hlen, fun hlt => ?_⟩
          by_cases heq : e = st.defaultEncoding
          · subst heq
            exact ⟨enc, List.getElem?_set_eq_of_lt _ (by omega)⟩
          · obtain ⟨old, hold⟩ := hdef hlt
            exact ⟨old, by rw [List.getElem?_set_ne heq]; exact hold⟩
        · simp only [hd, if_false]
          refine ⟨by simpa using hlen, fun _ => ?_⟩
          exact ⟨enc, List.getElem?_set_eq_of_lt _ (by omega)⟩
    · simp only [hval]
      simp only [Bool.not_false, if_true]
      exact ⟨hlen, hdef⟩
  | setDefault e =>
    simp only [mcfStep, mcfSetDefault]
    by_cases hval : encValid e = true
    · simp only [hval, Bool.not_true, Bool.false_eq_true, if_false]
      cases hslot : st.encoders[e]? with
      | none => exact ⟨hlen, hdef⟩
      | some s =>
        cases s with
        | none => exact ⟨hlen, hdef⟩
        | some enc => exact ⟨hlen, fun _ => ⟨enc, hslot⟩⟩
    · simp only [hval]
      simp only [Bool.not_false, if_true]
      exact ⟨hlen, hdef⟩
  | generate p => exact ⟨hlen, hdef⟩
  | verify p encoded => exact ⟨hlen, hdef⟩
  | isCurrent encoded => exact ⟨hlen, hdef⟩

/-- The invariant holds in every reachable registry state. -/
theorem mcfRun_inv (ops : List McfOp) : McfInv (mcfRun ops) := by
  suffices h : ∀ l st, McfInv st → McfInv (List.foldl mcfStep st l) by
    exact h ops initState ⟨rfl, by intro h4; simp [initState, maxEncoding] at h4⟩
  intro l
  induction l with
  | nil => intro st h; exact h
  | cons op rest ih =>
    intro st h
    exact ih (mcfStep st op) (mcfInv_step st op h)

/-- Claim C10: in every registry state reachable by any sequence of public
operations, `Generate` either fails with the no-encoders-registered error or
dispatches to the (occupied) default slot's encoder — the
missing-implementation panic branch is unreachable. -/
theorem c10_generate_safe (ops : List McfOp) (p : ByteStr) :
    mcfGenerate (mcfRun ops) p = .error .noEncoders ∨
    (∃ enc, (mcfRun ops).encoders[(mcfRun ops).defaultEncoding]? = some (some enc) ∧
      mcfGenerate (mcfRun ops) p = enc.gen p) := by
  obtain ⟨hlen, hdef⟩ := mcfRun_inv ops
  by_cases hd : (mcfRun ops).defaultEncoding < 4
  · right
    obtain ⟨enc, henc⟩ := hdef hd
    refine ⟨enc, henc, ?_⟩
    simp only [mcfGenerate]
    rw [if_neg (by simp [encValid, maxEncoding, hd]), henc]
  · left
    simp only [mcfGenerate]
    rw [if_pos (by simp [encValid, maxEncoding]; omega)]

/-! ## Claim C2: Create then Verify -/

/-- Claim C2 (amended): with a pbkdf2 encoder registered as default (salt
source fixed to a miner returning `salt` of the configured length), for every
plaintext `p`, `Generate` produces the serialized record and `Verify` of that
record returns `(true, nil)` — PROVIDED the auto-detecting decoder inverts
the base64 encodings of the salt and of the digest.  Without that proviso the
law fails (see the counterexample). -/
theorem c2_create_verify (kdf : ByteStr → ByteStr → Int → Int → ByteStr → ByteStr)
    (salt : ByteStr) (c : Pbkdf2.Config) (p : ByteStr)
    (hv : Pbkdf2.validHash c.Hash = true)
    (hlen : (salt.length : Int) = c.SaltLen)
    (hs : decode (EncodeBase64 salt) = .ok salt)
    (hk : decode (EncodeBase64 (kdf p salt c.Iterations c.KeyLen c.Hash)) =
      .ok (kdf p salt c.Iterations c.KeyLen c.Hash)) :
    mcfGenerate (mcfRun [.register 2 (toREnc (pbkdf2Bridge kdf (fun _ => .ok salt) c))]) p =
      .ok (Passwd.Bytes ⟨pbkdf2Name, Pbkdf2.Params c, salt,
        kdf p salt c.Iterations c.KeyLen c.Hash⟩) ∧
    mcfVerify (mcfRun [.register 2 (toREnc (pbkdf2Bridge kdf (fun _ => .ok salt) c))]) p
      (Passwd.Bytes ⟨pbkdf2Name, Pbkdf2.Params c, salt,
        kdf p salt c.Iterations c.KeyLen c.Hash⟩) =
      .ok true := by
  constructor
  · exact pbkdf2Create_eq kdf salt c p hlen
  · have hp : Passwd.Parse pbkdf2Name
        (Passwd.Bytes ⟨pbkdf2Name, Pbkdf2.Params c, salt,
          kdf p salt c.Iterations c.KeyLen c.Hash⟩) =
        .ok ⟨pbkdf2Name, Pbkdf2.Params c, salt, kdf p salt c.Iterations c.KeyLen c.Hash⟩ :=
      parse_bytes_ok _ _ _ _ (by decide) (sep_not_mem_pbkdf2Params c hv) hs hk
    have hsp : Pbkdf2.SetParams c (Pbkdf2.Params c) = .ok { c with SaltLen := c.SaltLen } :=
      pbkdf2SetParamsParams c c hv
    have hver := bridgeVerify_eq (pbkdf2Bridge kdf (fun _ => .ok salt) c) p
      (Passwd.Bytes ⟨pbkdf2Name, Pbkdf2.Params c, salt,
        kdf p salt c.Iterations c.KeyLen c.Hash⟩)
      ⟨pbkdf2Name, Pbkdf2.Params c, salt, kdf p salt c.Iterations c.KeyLen c.Hash⟩
      { c with SaltLen := c.SaltLen }
      (kdf p salt c.Iterations c.KeyLen c.Hash)
      hp hsp rfl
    exact hver.trans (by rw [beq_self_eq_true])

/-- Witness for claim C2 at a concrete configuration, salt [18] and a
constant digest primitive. -/
theorem c2_create_verify_witness :
    mcfGenerate c2wSt [112] = .ok c2wRec ∧ mcfVerify c2wSt [112] c2wRec = .ok true :=
  c2_create_verify c2wKdf [18] c2wCfg [112] (by decide) (by decide) (by decide) (by decide)

/-- Counterexample to claim C2 as stated: with the default pbkdf2
configuration and a salt source returning sixteen zero bytes (a possible
random outcome), `Generate` succeeds but `Verify` of the generated record
returns an error — the salt's base64 encoding "AAAAAAAAAAAAAAAAAAAAAA=="
contains no base64-only byte, is routed to the hex decoder, and fails on the
padding bytes — so Verify(p, Create(p)) is not (true, nil). -/
theorem c2_cex :
    mcfGenerate c2CexSt [97] = .ok c2CexRec ∧
    mcfVerify c2CexSt [97] c2CexRec = .error .decodeFail := by decide
